import Mathlib

/-!
Verification of the core numerics of the compchem-class notebooks: the
user-defined `Vector` algebra class and the geometry/energy functions
(`get_distance_vector`, `get_norm`, `get_distance`, `get_angle`, `harmonic`)
used to reproduce bond and angle energies.

Python floats are modelled as real numbers; Python exceptions are modelled
with `Except PyError` / explicit error results.
-/

namespace CompChem

noncomputable section

/-- Python exception kinds raised by the notebook code: `NameError` (unbound
name), `ZeroDivisionError` (float division by zero), `IndexError` (sequence
index out of range). -/
inductive PyError where
  | nameError
  | zeroDivisionError
  | indexError
deriving DecidableEq

/-! ### Vector algebra: the `Vector` class of the OOP notebook.

Named `Vec` here because `Vector` clashes with an existing Lean name; the
field `data` mirrors the single attribute `self.data`. -/

/-- The `Vector` class of the notebook: a wrapper around `self.data`, an
ordered list of floats (modelled as reals). -/
structure Vec where
  data : List ℝ
deriving DecidableEq

/-- Right-hand operand of the arithmetic dunder methods. The source dispatches
with `isinstance(y, float)`: a float scalar is broadcast, anything else is
treated as a `Vector` and paired positionally with `zip`. -/
inductive Operand where
  | scalar (y : ℝ)
  | vec (y : Vec)

/-- Source `Vector.__add__`: broadcast `x + y` over the data for a float
operand, else `[x + _y for (x, _y) in zip(self.data, y.data)]`. -/
def Vec.add (v : Vec) : Operand → Vec
  | .scalar y => ⟨v.data.map fun x => x + y⟩
  | .vec w => ⟨(v.data.zip w.data).map fun p => p.1 + p.2⟩

/-- Source `Vector.__sub__`: broadcast `x - y` for a float operand, else
zip-paired elementwise subtraction. -/
def Vec.sub (v : Vec) : Operand → Vec
  | .scalar y => ⟨v.data.map fun x => x - y⟩
  | .vec w => ⟨(v.data.zip w.data).map fun p => p.1 - p.2⟩

/-- Source `Vector.__mul__`: broadcast `x * y` for a float operand, else
zip-paired elementwise multiplication. -/
def Vec.mul (v : Vec) : Operand → Vec
  | .scalar y => ⟨v.data.map fun x => x * y⟩
  | .vec w => ⟨(v.data.zip w.data).map fun p => p.1 * p.2⟩

/-- Source `Vector.__truediv__`: the comprehension `[x / y for x in self.data]`
raises `ZeroDivisionError` exactly when `y` is zero and the data is nonempty;
the zip branch `[x / _y for (x, _y) in zip(self.data, y.data)]` raises exactly
when some zipped divisor is zero. Otherwise it returns the quotients. -/
def Vec.div (v : Vec) : Operand → Except PyError Vec
  | .scalar y =>
      if y = 0 ∧ v.data ≠ [] then .error .zeroDivisionError
      else .ok ⟨v.data.map fun x => x / y⟩
  | .vec w =>
      if ∃ p ∈ v.data.zip w.data, p.2 = 0 then .error .zeroDivisionError
      else .ok ⟨(v.data.zip w.data).map fun p => p.1 / p.2⟩

/-- Source `Vector.sum`: `sum(self.data)`. -/
def Vec.sum (v : Vec) : ℝ := v.data.sum

/-- Source `Vector.mean`: the body is `return average(self.data)`, but the name
`average` is not defined or imported anywhere in the notebook (there is no
`import numpy` and no builtin `average`), so every call raises `NameError`. -/
def Vec.mean (_v : Vec) : Except PyError ℝ := .error .nameError

/-- Source `Vector.dot`: `return (self * y).sum()`. -/
def Vec.dot (v y : Vec) : ℝ := (v.mul (.vec y)).sum

/-! ### Geometry and energy functions (MM-forces notebook). -/

/-- A 3-component coordinate, as the notebook's length-3 numpy arrays. -/
structure Coord3 where
  x : ℝ
  y : ℝ
  z : ℝ

/-- Source `get_distance_vector(x0, x1)`: returns `x1 - x0` componentwise. -/
def get_distance_vector (x0 x1 : Coord3) : Coord3 :=
  ⟨x1.x - x0.x, x1.y - x0.y, x1.z - x0.z⟩

/-- Source `get_norm(x01)`: `np.linalg.norm(x01, ord=2, axis=-1)`, the
Euclidean norm of a 3-vector. -/
def get_norm (v : Coord3) : ℝ := Real.sqrt (v.x ^ 2 + v.y ^ 2 + v.z ^ 2)

/-- Source `get_distance(x0, x1)`: `get_norm(get_distance_vector(x0, x1))`. -/
def get_distance (x0 x1 : Coord3) : ℝ := get_norm (get_distance_vector x0 x1)

/-- Source `np.cross` on 3-vectors: the standard cross product. -/
def cross (a b : Coord3) : Coord3 :=
  ⟨a.y * b.z - a.z * b.y, a.z * b.x - a.x * b.z, a.x * b.y - a.y * b.x⟩

/-- Source `(x10 * x12).sum(-1)`: the dot product of two 3-vectors. -/
def dot3 (a b : Coord3) : ℝ := a.x * b.x + a.y * b.y + a.z * b.z

/-- Source `np.arctan2(y, x)`: the signed angle of the point `(x, y)`,
embedded as the argument of the complex number `x + y*i`, which has the same
convention (range `(-pi, pi]`, and `arctan2(0, 0) = 0`). -/
def atan2 (y x : ℝ) : ℝ := Complex.arg ⟨x, y⟩

/-- Source `get_angle(x0, x1, x2)`: with `x10 = get_distance_vector(x1, x0)`
and `x12 = get_distance_vector(x1, x2)`, returns
`np.arctan2(get_norm(np.cross(x10, x12)), (x10 * x12).sum(-1))`. -/
def get_angle (x0 x1 x2 : Coord3) : ℝ :=
  atan2 (get_norm (cross (get_distance_vector x1 x0) (get_distance_vector x1 x2)))
        (dot3 (get_distance_vector x1 x0) (get_distance_vector x1 x2))

/-- Source `harmonic(x, k, r0)`: `0.5 * k * (x - r0) ** 2`. -/
def harmonic (x k r0 : ℝ) : ℝ := 0.5 * k * (x - r0) ^ 2

/-- Euclidean distance between two points, written directly from its textbook
formula; used to state claims independently of `get_distance`. -/
def euclideanDist (p q : Coord3) : ℝ :=
  Real.sqrt ((p.x - q.x) ^ 2 + (p.y - q.y) ^ 2 + (p.z - q.z) ^ 2)

/-- A bond term of the force field: two atom indices, an equilibrium length
`r0` and a force constant `k_r`. -/
structure BondTerm where
  atom_i : ℕ
  atom_j : ℕ
  r0 : ℝ
  k_r : ℝ

/-- Modelled from the spec: `totalBondEnergy(conformation, bondTerms)` is not a
named function in the source; the notebook instantiates the per-term sum for
the two O-H bonds of water as `harmonic(r01, k_r, r0) + harmonic(r12, k_r, r0)`
with `r01 = get_distance(x0, x1)` and `r12 = get_distance(x1, x2)`. Following
the spec: for each bond term, compute the distance between its two atom
positions, apply `harmonic` with that term's `k_r, r0`, and sum across all
terms; an out-of-range atom index fails with an `IndexError` kind. -/
def totalBondEnergy (conf : List Coord3) : List BondTerm → Except PyError ℝ
  | [] => .ok 0
  | t :: ts =>
      match conf[t.atom_i]?, conf[t.atom_j]? with
      | some xi, some xj =>
          (totalBondEnergy conf ts).map fun e =>
            harmonic (get_distance xi xj) t.k_r t.r0 + e
      | _, _ => .error .indexError

/-! ### Claim C3: the harmonic potential formula and its zero at equilibrium. -/

/-- C3: `harmonic(x, k, x0)` returns `0.5 * k * (x - x0)^2`, and in particular
`harmonic(x0, k, x0) = 0` exactly, for every `k`. -/
theorem harmonic_formula_and_zero_at_equilibrium (x k x0 : ℝ) :
    harmonic x k x0 = 0.5 * k * (x - x0) ^ 2 ∧ harmonic x0 k x0 = 0 := by
  constructor
  · rfl
  · simp [harmonic]

/-! ### Claims about `get_angle`. -/

/-- Helper: with a nonnegative first argument `y` and `(y, x)` lying on the
circle of a positive radius `r`, the two-argument arctangent agrees with the
arccosine of `x / r`. -/
lemma atan2_eq_arccos (y x r : ℝ) (hy : 0 ≤ y) (hr : 0 < r)
    (hxy : y ^ 2 + x ^ 2 = r ^ 2) : atan2 y x = Real.arccos (x / r) := by
  have habs : Complex.abs ⟨x, y⟩ = r := by
    rw [Complex.abs_apply, Complex.normSq_mk]
    have hx : x * x + y * y = r ^ 2 := by ring_nf; ring_nf at hxy; linarith
    rw [hx, Real.sqrt_sq hr.le]
  have hz : (⟨x, y⟩ : ℂ) ≠ 0 := by
    intro h
    rw [h, map_zero] at habs
    exact hr.ne habs
  have harg := Complex.arg_of_im_nonneg_of_ne_zero (z := ⟨x, y⟩) hy hz
  rw [habs] at harg
  exact harg

/-- Helper: the squared Euclidean norm recovers the component sum of squares. -/
lemma sq_get_norm (v : Coord3) : get_norm v ^ 2 = v.x ^ 2 + v.y ^ 2 + v.z ^ 2 :=
  Real.sq_sqrt (by positivity)

/-- Helper: Lagrange's identity for the cross and dot products of 3-vectors. -/
lemma cross_dot_lagrange (u v : Coord3) :
    get_norm (cross u v) ^ 2 + dot3 u v ^ 2 = (get_norm u * get_norm v) ^ 2 := by
  rw [mul_pow, sq_get_norm, sq_get_norm, sq_get_norm]
  simp only [cross, dot3]
  ring

/-- C2: `get_angle(a, center, b)` forms the vectors `v1` from `center` to `a`
and `v2` from `center` to `b` and returns `atan2(norm(cross(v1, v2)),
dot(v1, v2))`; when both vectors are nonzero this is the angle between `v1`
and `v2` in radians, `arccos(dot(v1, v2) / (norm(v1) * norm(v2)))`. -/
theorem get_angle_atan2_spec (a c b : Coord3) :
    get_angle a c b
      = atan2 (get_norm (cross (get_distance_vector c a) (get_distance_vector c b)))
          (dot3 (get_distance_vector c a) (get_distance_vector c b))
    ∧ (get_norm (get_distance_vector c a) ≠ 0 →
        get_norm (get_distance_vector c b) ≠ 0 →
        get_angle a c b
          = Real.arccos (dot3 (get_distance_vector c a) (get_distance_vector c b)
              / (get_norm (get_distance_vector c a)
                  * get_norm (get_distance_vector c b)))) := by
  refine ⟨rfl, fun hu hv => ?_⟩
  have hu' : 0 < get_norm (get_distance_vector c a) :=
    lt_of_le_of_ne (Real.sqrt_nonneg _) (Ne.symm hu)
  have hv' : 0 < get_norm (get_distance_vector c b) :=
    lt_of_le_of_ne (Real.sqrt_nonneg _) (Ne.symm hv)
  exact atan2_eq_arccos _ _ _ (Real.sqrt_nonneg _) (mul_pos hu' hv')
    (cross_dot_lagrange _ _)

/-- C8: the computed angle is invariant under swapping the two outer atoms:
`get_angle(a, c, b) = get_angle(b, c, a)`. -/
theorem get_angle_swap_symm (a c b : Coord3) : get_angle a c b = get_angle b c a := by
  unfold get_angle
  have hd : dot3 (get_distance_vector c a) (get_distance_vector c b)
      = dot3 (get_distance_vector c b) (get_distance_vector c a) := by
    simp only [dot3]; ring
  have hn : get_norm (cross (get_distance_vector c a) (get_distance_vector c b))
      = get_norm (cross (get_distance_vector c b) (get_distance_vector c a)) := by
    simp only [get_norm, cross]
    congr 1
    ring
  rw [hd, hn]

/-- C10: the value of `get_angle` always lies in the closed interval
`[0, pi]`, because the first argument of the two-argument arctangent — the
norm of the cross product — is never negative. -/
theorem get_angle_mem_Icc_zero_pi (a c b : Coord3) :
    0 ≤ get_angle a c b ∧ get_angle a c b ≤ Real.pi := by
  unfold get_angle atan2
  refine ⟨Complex.arg_nonneg_iff.mpr ?_, Complex.arg_le_pi _⟩
  exact Real.sqrt_nonneg _

/-! ### Claims about the `Vector` arithmetic methods. -/

/-- Helper: `getD` after a `map`, inside the bounds. -/
lemma getD_map_of_lt (f : ℝ → ℝ) (l : List ℝ) {i : ℕ} (h : i < l.length) :
    (l.map f).getD i 0 = f (l.getD i 0) := by
  rw [List.getD_eq_getElem _ _ (by simpa using h), List.getD_eq_getElem _ _ h]
  simp

/-- Helper: `getD` after mapping a binary operation over a `zip`, inside the
bounds of both lists. -/
lemma zip_map_getD_of_lt (f : ℝ × ℝ → ℝ) (l₁ l₂ : List ℝ) {i : ℕ}
    (h1 : i < l₁.length) (h2 : i < l₂.length) :
    ((l₁.zip l₂).map f).getD i 0 = f (l₁.getD i 0, l₂.getD i 0) := by
  have hz : i < (l₁.zip l₂).length := by
    rw [List.length_zip, lt_inf_iff]; exact ⟨h1, h2⟩
  rw [List.getD_eq_getElem _ _ (by simpa using hz), List.getD_eq_getElem _ _ h1,
    List.getD_eq_getElem _ _ h2]
  simp [List.getElem_zip]

/-- Helper: the sum of zipped products is the dot product over the truncated
common range. -/
lemma zip_mul_sum (l₁ l₂ : List ℝ) :
    ((l₁.zip l₂).map fun p => p.1 * p.2).sum
      = ∑ i ∈ Finset.range (min l₁.length l₂.length), l₁.getD i 0 * l₂.getD i 0 := by
  induction l₁ generalizing l₂ with
  | nil => simp
  | cons a t ih =>
    cases l₂ with
    | nil => simp
    | cons b t2 =>
      have hmin : min (a :: t).length (b :: t2).length = min t.length t2.length + 1 := by
        simpa using Nat.succ_min_succ t.length t2.length
      rw [List.zip_cons_cons, List.map_cons, List.sum_cons, ih t2, hmin,
        Finset.sum_range_succ']
      simp only [List.getD_cons_succ, List.getD_cons_zero]
      exact add_comm _ _

/-- Helper: `Except.map` acts on a success value. -/
lemma except_map_ok {α β : Type} (f : α → β) (a : α) :
    Except.map (ε := PyError) f (.ok a) = .ok (f a) := rfl

/-- C4: each arithmetic method broadcasts a scalar operand elementwise and
combines a same-length vector operand pairwise, returning a new `Vec` of the
same length; the operand's kind alone selects the branch. The nested
implications on the `div` conclusions rule out zero divisors, on which `div`
instead raises (claim C7). -/
theorem vec_arith_broadcast_and_pairwise (v w : Vec) (s : ℝ) (i : ℕ)
    (hlen : v.data.length = w.data.length) (hi : i < v.data.length) :
    ((v.add (.scalar s)).data.length = v.data.length
      ∧ (v.add (.scalar s)).data.getD i 0 = v.data.getD i 0 + s
      ∧ (v.add (.vec w)).data.length = v.data.length
      ∧ (v.add (.vec w)).data.getD i 0 = v.data.getD i 0 + w.data.getD i 0)
    ∧ ((v.sub (.scalar s)).data.length = v.data.length
      ∧ (v.sub (.scalar s)).data.getD i 0 = v.data.getD i 0 - s
      ∧ (v.sub (.vec w)).data.length = v.data.length
      ∧ (v.sub (.vec w)).data.getD i 0 = v.data.getD i 0 - w.data.getD i 0)
    ∧ ((v.mul (.scalar s)).data.length = v.data.length
      ∧ (v.mul (.scalar s)).data.getD i 0 = v.data.getD i 0 * s
      ∧ (v.mul (.vec w)).data.length = v.data.length
      ∧ (v.mul (.vec w)).data.getD i 0 = v.data.getD i 0 * w.data.getD i 0)
    ∧ (s ≠ 0 →
        (v.div (.scalar s)).map (fun u => u.data.length) = .ok v.data.length
        ∧ (v.div (.scalar s)).map (fun u => u.data.getD i 0)
            = .ok (v.data.getD i 0 / s))
    ∧ ((∀ x ∈ w.data, x ≠ 0) →
        (v.div (.vec w)).map (fun u => u.data.length) = .ok v.data.length
        ∧ (v.div (.vec w)).map (fun u => u.data.getD i 0)
            = .ok (v.data.getD i 0 / w.data.getD i 0)) := by
  have hi' : i < w.data.length := hlen ▸ hi
  refine ⟨⟨?_, ?_, ?_, ?_⟩, ⟨?_, ?_, ?_, ?_⟩, ⟨?_, ?_, ?_, ?_⟩, fun hs => ?_, fun hw => ?_⟩
  · simp [Vec.add]
  · exact getD_map_of_lt (fun x => x + s) v.data hi
  · simp [Vec.add, List.length_zip, hlen]
  · exact zip_map_getD_of_lt (fun p => p.1 + p.2) v.data w.data hi hi'
  · simp [Vec.sub]
  · exact getD_map_of_lt (fun x => x - s) v.data hi
  · simp [Vec.sub, List.length_zip, hlen]
  · exact zip_map_getD_of_lt (fun p => p.1 - p.2) v.data w.data hi hi'
  · simp [Vec.mul]
  · exact getD_map_of_lt (fun x => x * s) v.data hi
  · simp [Vec.mul, List.length_zip, hlen]
  · exact zip_map_getD_of_lt (fun p => p.1 * p.2) v.data w.data hi hi'
  · have hdiv_s : v.div (.scalar s) = .ok ⟨v.data.map fun x => x / s⟩ := by
      simp only [Vec.div]
      rw [if_neg]
      rintro ⟨h0, -⟩
      exact hs h0
    constructor
    · rw [hdiv_s, except_map_ok]; simp
    · rw [hdiv_s, except_map_ok]
      rw [getD_map_of_lt (fun x => x / s) v.data hi]
  · have hdiv_v : v.div (.vec w) = .ok ⟨(v.data.zip w.data).map fun p => p.1 / p.2⟩ := by
      simp only [Vec.div]
      rw [if_neg]
      rintro ⟨⟨p1, p2⟩, hp, h0⟩
      exact hw p2 (List.of_mem_zip hp).2 h0
    constructor
    · rw [hdiv_v, except_map_ok]
      simp [List.length_zip, hlen]
    · rw [hdiv_v, except_map_ok]
      rw [zip_map_getD_of_lt (fun p => p.1 / p.2) v.data w.data hi hi']

/-- Witness for `vec_arith_broadcast_and_pairwise` at `v = [2, 4]`,
`w = [1, 5]`, `s = 3`, `i = 0`, exercising both the unconditional add
conclusion and the zero-divisor-guarded scalar-division conclusion. -/
theorem vec_arith_broadcast_and_pairwise_witness :
    (Vec.mk [2, 4]).data.length = (Vec.mk [1, 5]).data.length
    ∧ 0 < (Vec.mk [2, 4]).data.length
    ∧ ((Vec.mk [2, 4]).add (.scalar 3)).data.getD 0 0
        = (Vec.mk [2, 4]).data.getD 0 0 + 3
    ∧ (3 : ℝ) ≠ 0
    ∧ ((Vec.mk [2, 4]).div (.scalar 3)).map (fun u => u.data.getD 0 0)
        = .ok ((Vec.mk [2, 4]).data.getD 0 0 / 3) :=
  have h1 : (Vec.mk [2, 4]).data.length = (Vec.mk [1, 5]).data.length := rfl
  have h2 : 0 < (Vec.mk [2, 4]).data.length := by simp
  have h3 : (3 : ℝ) ≠ 0 := three_ne_zero
  ⟨h1, h2,
    ((vec_arith_broadcast_and_pairwise (Vec.mk [2, 4]) (Vec.mk [1, 5]) 3 0
      h1 h2).1).2.1,
    h3,
    ((vec_arith_broadcast_and_pairwise (Vec.mk [2, 4]) (Vec.mk [1, 5]) 3 0
      h1 h2).2.2.2.1 h3).2⟩

/-- C5 (code bug): `Vector.mean` calls the unbound name `average`, so it
raises `NameError` on every input instead of returning `sum() / length()`;
on `[0, 1]` the claimed value would be `1/2`. -/
theorem mean_raises_nameError :
    Vec.mean ⟨[0, 1]⟩ = .error .nameError
    ∧ Vec.mean ⟨[0, 1]⟩ ≠ .ok (Vec.sum ⟨[0, 1]⟩ / 2) := by
  exact ⟨rfl, by simp [Vec.mean]⟩

/-- C6 (counterexample): on operands of lengths 2 and 1, `__add__` silently
truncates to the shorter length and returns `[11]`, and `dot` returns `10`;
neither fails. -/
theorem mismatched_ops_truncate_counterexample :
    Vec.add ⟨[1, 2]⟩ (.vec ⟨[10]⟩) = ⟨[11]⟩
    ∧ Vec.dot ⟨[1, 2]⟩ ⟨[10]⟩ = 10 := by
  constructor
  · norm_num [Vec.add, List.zip_cons_cons, List.zip_nil_right]
  · norm_num [Vec.dot, Vec.mul, Vec.sum, List.zip_cons_cons, List.zip_nil_right]

/-- C6 (amended): on mismatched-length operands the binary vector operations
do not fail; `add`, `subtract`, `multiply` (and `divide`, absent zero
divisors) pair elements positionally and truncate to the shorter length, and
`dot` sums the products over the truncated pairs. -/
theorem vec_arith_mismatched_truncates (u w : Vec) (i : ℕ)
    (hi : i < min u.data.length w.data.length) :
    ((u.add (.vec w)).data.length = min u.data.length w.data.length
      ∧ (u.add (.vec w)).data.getD i 0 = u.data.getD i 0 + w.data.getD i 0)
    ∧ ((u.sub (.vec w)).data.length = min u.data.length w.data.length
      ∧ (u.sub (.vec w)).data.getD i 0 = u.data.getD i 0 - w.data.getD i 0)
    ∧ ((u.mul (.vec w)).data.length = min u.data.length w.data.length
      ∧ (u.mul (.vec w)).data.getD i 0 = u.data.getD i 0 * w.data.getD i 0)
    ∧ ((∀ x ∈ w.data, x ≠ 0) →
        (u.div (.vec w)).map (fun r => r.data.length)
            = .ok (min u.data.length w.data.length)
        ∧ (u.div (.vec w)).map (fun r => r.data.getD i 0)
            = .ok (u.data.getD i 0 / w.data.getD i 0))
    ∧ u.dot w = ∑ j ∈ Finset.range (min u.data.length w.data.length),
        u.data.getD j 0 * w.data.getD j 0 := by
  have hi1 : i < u.data.length := (lt_min_iff.mp hi).1
  have hi2 : i < w.data.length := (lt_min_iff.mp hi).2
  have hzl : (u.data.zip w.data).length = min u.data.length w.data.length :=
    List.length_zip u.data w.data
  refine ⟨⟨?_, ?_⟩, ⟨?_, ?_⟩, ⟨?_, ?_⟩, fun hw => ?_, ?_⟩
  · simp [Vec.add, hzl]
  · exact zip_map_getD_of_lt (fun p => p.1 + p.2) u.data w.data hi1 hi2
  · simp [Vec.sub, hzl]
  · exact zip_map_getD_of_lt (fun p => p.1 - p.2) u.data w.data hi1 hi2
  · simp [Vec.mul, hzl]
  · exact zip_map_getD_of_lt (fun p => p.1 * p.2) u.data w.data hi1 hi2
  · have hdiv : u.div (.vec w) = .ok ⟨(u.data.zip w.data).map fun p => p.1 / p.2⟩ := by
      simp only [Vec.div]
      rw [if_neg]
      rintro ⟨⟨p1, p2⟩, hp, h0⟩
      exact hw p2 (List.of_mem_zip hp).2 h0
    constructor
    · rw [hdiv, except_map_ok]
      simp [hzl]
    · rw [hdiv, except_map_ok]
      rw [zip_map_getD_of_lt (fun p => p.1 / p.2) u.data w.data hi1 hi2]
  · simp only [Vec.dot, Vec.mul, Vec.sum]
    exact zip_mul_sum u.data w.data

/-- Witness for `vec_arith_mismatched_truncates` at `u = [1, 2, 3]`,
`w = [0, 5]`, `i = 1`: the mismatched (and even zero-containing) operand is
truncated, with the pairwise element and the truncated dot product. -/
theorem vec_arith_mismatched_truncates_witness :
    1 < min (Vec.mk [1, 2, 3]).data.length (Vec.mk [0, 5]).data.length
    ∧ ((Vec.mk [1, 2, 3]).add (.vec (Vec.mk [0, 5]))).data.getD 1 0
        = (Vec.mk [1, 2, 3]).data.getD 1 0 + (Vec.mk [0, 5]).data.getD 1 0
    ∧ (Vec.mk [1, 2, 3]).dot (Vec.mk [0, 5])
        = ∑ j ∈ Finset.range
            (min (Vec.mk [1, 2, 3]).data.length (Vec.mk [0, 5]).data.length),
          (Vec.mk [1, 2, 3]).data.getD j 0 * (Vec.mk [0, 5]).data.getD j 0 :=
  have h1 : 1 < min (Vec.mk [1, 2, 3]).data.length (Vec.mk [0, 5]).data.length := by
    norm_num
  ⟨h1,
    ((vec_arith_mismatched_truncates (Vec.mk [1, 2, 3]) (Vec.mk [0, 5]) 1 h1).1).2,
    (vec_arith_mismatched_truncates (Vec.mk [1, 2, 3]) (Vec.mk [0, 5]) 1
      h1).2.2.2.2⟩

/-- C7: `divide` raises a `ZeroDivisionError` on a nonempty vector when the
scalar divisor is `0.0`, and when a same-length vector divisor contains a
zero element. -/
theorem div_zero_divisor_raises (v w : Vec) (hv : v.data ≠ [])
    (hlen : v.data.length = w.data.length) (hz : (0 : ℝ) ∈ w.data) :
    v.div (.scalar 0) = .error .zeroDivisionError
    ∧ v.div (.vec w) = .error .zeroDivisionError := by
  constructor
  · simp only [Vec.div]
    rw [if_pos ⟨trivial, hv⟩]
  · obtain ⟨i, hi, hw0⟩ := List.getElem_of_mem hz
    have hiv : i < v.data.length := by rw [hlen]; exact hi
    have hzl : i < (v.data.zip w.data).length := by
      rw [List.length_zip, lt_inf_iff]; exact ⟨hiv, hi⟩
    have hex : ∃ p ∈ v.data.zip w.data, p.2 = 0 := by
      refine ⟨(v.data.zip w.data)[i], List.getElem_mem hzl, ?_⟩
      rw [List.getElem_zip]
      exact hw0
    simp only [Vec.div]
    rw [if_pos hex]

/-- Witness for `div_zero_divisor_raises` at `v = [1]`, `w = [0]`. -/
theorem div_zero_divisor_raises_witness :
    (Vec.mk [1]).data ≠ []
    ∧ (Vec.mk [1]).data.length = (Vec.mk [0]).data.length
    ∧ (0 : ℝ) ∈ (Vec.mk [0]).data
    ∧ (Vec.mk [1]).div (.scalar 0) = .error .zeroDivisionError :=
  have h1 : (Vec.mk [1]).data ≠ [] := by simp
  have h2 : (Vec.mk [1]).data.length = (Vec.mk [0]).data.length := rfl
  have h3 : (0 : ℝ) ∈ (Vec.mk [0]).data := List.mem_singleton.mpr rfl
  ⟨h1, h2, h3, (div_zero_divisor_raises (Vec.mk [1]) (Vec.mk [0]) h1 h2 h3).1⟩

/-- C9: adding and then subtracting the same scalar round-trips: for every
scalar `s` and vector `v`, `v.add(s).subtract(s)` equals `v` (exactly, in the
real-number model of floats). -/
theorem add_sub_scalar_roundtrip (s : ℝ) (v : Vec) :
    (v.add (.scalar s)).sub (.scalar s) = v := by
  cases v with
  | mk data =>
    simp only [Vec.add, Vec.sub, List.map_map, Vec.mk.injEq]
    have hfun : ((fun x : ℝ => x - s) ∘ fun x : ℝ => x + s) = id := by
      funext x
      simp [Function.comp]
    rw [hfun, List.map_id]

/-! ### Claim C1: the total bond energy. -/

/-- Helper: the source's `get_distance` is the Euclidean distance. -/
lemma get_distance_eq_euclideanDist (p q : Coord3) :
    get_distance p q = euclideanDist p q := by
  unfold get_distance get_norm get_distance_vector euclideanDist
  congr 1
  ring

/-- C1: whenever every bond term's atom indices are in range, the total bond
energy is the sum, over all bond terms, of the harmonic potential with that
term's `k_r, r0` applied to the Euclidean distance between the positions of
the term's two atoms. -/
theorem totalBondEnergy_sum (conf : List Coord3) (terms : List BondTerm)
    (h : ∀ t ∈ terms, t.atom_i < conf.length ∧ t.atom_j < conf.length) :
    totalBondEnergy conf terms
      = .ok ((terms.map fun t =>
          harmonic
            (euclideanDist (conf.getD t.atom_i ⟨0, 0, 0⟩) (conf.getD t.atom_j ⟨0, 0, 0⟩))
            t.k_r t.r0).sum) := by
  induction terms with
  | nil => rfl
  | cons t ts ih =>
    obtain ⟨hit, hjt⟩ := h t (List.mem_cons_self t ts)
    have hrec := ih fun x hx => h x (List.mem_cons_of_mem _ hx)
    simp only [totalBondEnergy, List.getElem?_eq_getElem hit,
      List.getElem?_eq_getElem hjt, hrec, except_map_ok, List.map_cons,
      List.sum_cons]
    rw [List.getD_eq_getElem _ _ hit, List.getD_eq_getElem _ _ hjt,
      get_distance_eq_euclideanDist]

/-- Witness for `totalBondEnergy_sum` on a bent three-atom conformation with
two bond terms sharing `r0 = 1`, `k_r = 100`, mirroring the notebook's water
example. -/
theorem totalBondEnergy_sum_witness :
    (∀ t ∈ [BondTerm.mk 0 1 1 100, BondTerm.mk 1 2 1 100],
        t.atom_i < ([⟨0, 0, 0⟩, ⟨1, 0, 0⟩, ⟨1, 1, 0⟩] : List Coord3).length
        ∧ t.atom_j < ([⟨0, 0, 0⟩, ⟨1, 0, 0⟩, ⟨1, 1, 0⟩] : List Coord3).length)
    ∧ totalBondEnergy [⟨0, 0, 0⟩, ⟨1, 0, 0⟩, ⟨1, 1, 0⟩]
        [BondTerm.mk 0 1 1 100, BondTerm.mk 1 2 1 100]
      = .ok (([BondTerm.mk 0 1 1 100, BondTerm.mk 1 2 1 100].map fun t =>
          harmonic
            (euclideanDist
              (([⟨0, 0, 0⟩, ⟨1, 0, 0⟩, ⟨1, 1, 0⟩] : List Coord3).getD t.atom_i ⟨0, 0, 0⟩)
              (([⟨0, 0, 0⟩, ⟨1, 0, 0⟩, ⟨1, 1, 0⟩] : List Coord3).getD t.atom_j ⟨0, 0, 0⟩))
            t.k_r t.r0).sum) :=
  have h : ∀ t ∈ [BondTerm.mk 0 1 1 100, BondTerm.mk 1 2 1 100],
      t.atom_i < ([⟨0, 0, 0⟩, ⟨1, 0, 0⟩, ⟨1, 1, 0⟩] : List Coord3).length
      ∧ t.atom_j < ([⟨0, 0, 0⟩, ⟨1, 0, 0⟩, ⟨1, 1, 0⟩] : List Coord3).length := by
    intro t ht
    simp only [List.mem_cons, List.not_mem_nil, or_false] at ht
    rcases ht with rfl | rfl <;> exact ⟨by norm_num, by norm_num⟩
  ⟨h, totalBondEnergy_sum _ _ h⟩

/-- Witness for `get_angle_atan2_spec` at the right-angle configuration
`a = (1, 0, 0)`, `c = (0, 0, 0)`, `b = (0, 1, 0)`. -/
theorem get_angle_atan2_spec_witness :
    get_norm (get_distance_vector ⟨0, 0, 0⟩ ⟨1, 0, 0⟩) ≠ 0
    ∧ get_norm (get_distance_vector ⟨0, 0, 0⟩ ⟨0, 1, 0⟩) ≠ 0
    ∧ get_angle ⟨1, 0, 0⟩ ⟨0, 0, 0⟩ ⟨0, 1, 0⟩
        = Real.arccos
            (dot3 (get_distance_vector ⟨0, 0, 0⟩ ⟨1, 0, 0⟩)
                (get_distance_vector ⟨0, 0, 0⟩ ⟨0, 1, 0⟩)
              / (get_norm (get_distance_vector ⟨0, 0, 0⟩ ⟨1, 0, 0⟩)
                  * get_norm (get_distance_vector ⟨0, 0, 0⟩ ⟨0, 1, 0⟩))) :=
  have h1 : get_norm (get_distance_vector ⟨0, 0, 0⟩ ⟨1, 0, 0⟩) ≠ 0 := by
    norm_num [get_norm, get_distance_vector]
  have h2 : get_norm (get_distance_vector ⟨0, 0, 0⟩ ⟨0, 1, 0⟩) ≠ 0 := by
    norm_num [get_norm, get_distance_vector]
  ⟨h1, h2, (get_angle_atan2_spec ⟨1, 0, 0⟩ ⟨0, 0, 0⟩ ⟨0, 1, 0⟩).2 h1 h2⟩

end

end CompChem
